import Mathlib

/-!
Verification development for a PDF PII-redaction tool (`redact.py` and
`extract.py`).  Python strings are embedded as lists of characters; the
external libraries (the Presidio analyzer, the PyMuPDF page-search and the
difflib `SequenceMatcher.ratio`) are abstract parameters, while every
function of the repository itself is translated definition-by-definition.
-/

/-- A Python string, embedded as its list of characters. -/
abbrev Str := List Char

/-- Coerce a Lean string literal to the embedding type. -/
def str (s : String) : Str := s.data

/-- Python `str.lower()` (character-wise, as for ASCII text). -/
def pyLower (s : Str) : Str := s.map Char.toLower

/-- The characters Python `str.split()` and `str.strip()` treat as whitespace. -/
def pyIsSpace (c : Char) : Bool :=
  c ∈ [' ', '\t', '\n', '\r', '\x0b', '\x0c']

/-- Python `str.split()` with no arguments: split on runs of whitespace,
discarding empty pieces.  `acc` holds the current word reversed. -/
def pySplitAux : Str → Str → List Str
  | [], acc => if acc.isEmpty then [] else [acc.reverse]
  | c :: rest, acc =>
    if pyIsSpace c then
      if acc.isEmpty then pySplitAux rest [] else acc.reverse :: pySplitAux rest []
    else pySplitAux rest (c :: acc)

/-- Python `s.split()`. -/
def pySplit (s : Str) : List Str := pySplitAux s []

/-- Python `s.strip()`: remove leading and trailing whitespace. -/
def pyStrip (s : Str) : Str :=
  ((s.dropWhile pyIsSpace).reverse.dropWhile pyIsSpace).reverse

/-- Python `s[start:stop]` for natural indices (as produced by the analyzer). -/
def pySlice (s : Str) (start stop : Nat) : Str := (s.take stop).drop start

/-- Python `s.replace(c, "")`: every occurrence of the character `c` is
replaced by the empty string. -/
def pyRemoveChar (s : Str) (c : Char) : Str :=
  s.foldr (fun x acc => if x = c then acc else x :: acc) []

/-- Python `" ".join(words)`. -/
def joinSpace (words : List Str) : Str := List.intercalate [' '] words

/-- `DEFAULT_IGNORE_TERMS` from `redact.py` (a Python set literal; the
duplicated entries of the literal are kept, which is harmless for
membership). -/
def DEFAULT_IGNORE_TERMS : List Str :=
  ([ "git", "github", "gitlab", "bitbucket",
     "python", "java", "javascript", "typescript", "c++", "c#", "ruby", "go",
     "rust", "php", "perl",
     "react", "angular", "vue", "svelte", "jquery", "node", "nodejs", "express",
     "django", "flask", "spring", "rails", "laravel", "symfony",
     "aws", "azure", "gcp", "cloud", "docker", "kubernetes", "terraform",
     "sql", "mysql", "postgresql", "mongodb", "oracle", "redis", "cassandra",
     "linux", "unix", "windows", "macos", "ubuntu", "debian", "fedora", "centos",
     "agile", "scrum", "kanban", "jira", "confluence", "trello",
     "jenkins", "circleci", "travis", "github actions", "gitlab ci",
     "bitbucket pipelines",
     "selenium", "cypress", "jest", "mocha", "chai", "jasmine", "pytest",
     "unittest",
     "docker-compose", "vagrant", "ansible", "puppet", "chef",
     "elasticsearch", "logstash", "kibana", "grafana", "prometheus",
     "mongodb", "cassandra", "hadoop", "spark", "flink",
     "redis", "memcached", "rabbitmq", "kafka", "active directory",
     "oauth", "openid", "jwt", "saml", "ldap",
     "rest", "soap", "graphql", "websocket", "http", "https",
     "tcp", "udp", "ip", "dns", "dhcp",
     "ssl", "tls", "ssh", "ftp", "sftp", "scp",
     "http2", "http3", "quic", "websocket",
     "json", "xml", "yaml", "csv", "protobuf",
     "html", "css", "scss", "less", "sass",
     "bootstrap", "tailwind", "materialize", "foundation",
     "webpack", "gulp", "grunt", "parcel", "vite",
     "babel", "typescript", "eslint", "prettier",
     "ASCII", "UTF-8", "ISO-8859-1", "UTF-16", "UTF-32",
     "ASP.NET", "PHP", "Ruby on Rails", "Django", "Flask",
     "Spring", "Laravel", "Symfony", "Express",
     "ASP.NET", "asp.net", ".net", ".NET", "dotnet", "asp" ] : List String).map str

/-- `normalize_text` from `redact.py`: lowercase, then remove every period,
hyphen and space (three chained `replace(_, "")` calls). -/
def normalize_text (text : Str) : Str :=
  pyRemoveChar (pyRemoveChar (pyRemoveChar (pyLower text) '.') '-') ' '

/-- The technology substrings checked for `URL` entities in `should_ignore`. -/
def urlTechTerms : List Str :=
  [str ".net", str "asp", str "flask", str "django", str "rails"]

/-- `should_ignore` from `redact.py`.  `entity_type` is `Option Str` because
the Python parameter defaults to `None`. -/
def should_ignore (entity_text : Str) (ignore_terms : List Str)
    (entity_type : Option Str) : Bool :=
  let entity_lower := pyLower entity_text
  let normalized_entity := normalize_text entity_text
  if entity_lower ∈ ignore_terms then true
  else if normalized_entity ∈ ignore_terms.map normalize_text then true
  else if (pySplit entity_lower).any (fun word =>
      decide (word ∈ ignore_terms) ||
      decide (normalize_text word ∈ ignore_terms.map normalize_text)) then true
  else if entity_type = some (str "URL") then
    urlTechTerms.any (fun tech_term => decide (tech_term <:+: entity_lower))
  else false

/-- `similar` from `redact.py`: the `SequenceMatcher.ratio` of the lowercased
strings.  The ratio itself is external library code, abstracted as `simFn`. -/
def similar (simFn : Str → Str → ℚ) (a b : Str) : ℚ :=
  simFn (pyLower a) (pyLower b)

/-- One span reported by the Presidio analyzer: character offsets and the
entity type.  (`end` is a Lean keyword, hence `stop`.) -/
structure RecognizerResult where
  start : Nat
  stop : Nat
  entity_type : Str
deriving DecidableEq, Repr

/-- The external analyzer engine, abstracted: text, entity list and language
in, recognizer results out. -/
abbrev Analyzer := Str → List Str → Str → List RecognizerResult

/-- `entities_to_detect` from `redact_pdf`. -/
def entities_to_detect : List Str :=
  [str "PERSON", str "EMAIL_ADDRESS", str "PHONE_NUMBER", str "URL"]

/-- A call made to `analyzer.analyze`. -/
structure AnalyzeCall where
  text : Str
  entities : List Str
  language : Str
deriving DecidableEq, Repr

/-- State accumulated by the first pass of `redact_pdf`: the analyze calls
made, `all_results` (page number, recognizer result, extracted entity text)
and `found_persons`. -/
structure FirstPassState where
  calls : List AnalyzeCall
  all_results : List (Nat × RecognizerResult × Str)
  found_persons : List Str
deriving DecidableEq, Repr

/-- The body of the inner result loop of the first pass: extract the entity
text, drop it when `should_ignore` holds, otherwise append it to
`all_results` and, for `PERSON` entities, to `found_persons`. -/
def processResult (ignore_terms : List Str) (page_num : Nat) (text : Str)
    (st : FirstPassState) (result : RecognizerResult) : FirstPassState :=
  let entity_text := pySlice text result.start result.stop
  let entity_type := result.entity_type
  if should_ignore entity_text ignore_terms (some entity_type) then st
  else
    { st with
      all_results := st.all_results ++ [(page_num, result, entity_text)],
      found_persons :=
        if entity_type = str "PERSON" then st.found_persons ++ [entity_text]
        else st.found_persons }

/-- One page of the first pass: record the analyze call and fold the results. -/
def processPage (analyzer : Analyzer) (ignore_terms : List Str)
    (st : FirstPassState) (pt : Nat × Str) : FirstPassState :=
  let analyzer_results := analyzer pt.2 entities_to_detect (str "en")
  let st1 : FirstPassState :=
    { st with calls := st.calls ++ [⟨pt.2, entities_to_detect, str "en"⟩] }
  analyzer_results.foldl (processResult ignore_terms pt.1 pt.2) st1

/-- The first pass of `redact_pdf` over the page texts. -/
def firstPass (analyzer : Analyzer) (ignore_terms : List Str)
    (pages : List Str) : FirstPassState :=
  pages.enum.foldl (processPage analyzer ignore_terms) ⟨[], [], []⟩

/-- `name_variants[potential_name] = True`: a Python dict keyed by the variant
string, embedded as the key list in insertion order. -/
def insertVariant (variants : List Str) (v : Str) : List Str :=
  if v ∈ variants then variants else variants ++ [v]

/-- The word windows a page contributes in the second pass: for each start
index `i` and each `name_length` in `range(2, 5)`, the join
`" ".join(words[i:i+name_length])` when it fits. -/
def pageWindows (text : Str) : List Str :=
  let words := pySplit text
  (List.range words.length).flatMap (fun i =>
    [2, 3, 4].filterMap (fun name_length =>
      if i + name_length ≤ words.length then
        some (joinSpace ((words.drop i).take name_length))
      else none))

/-- The second-pass recording condition for a window `potential_name`:
it is at least 8 characters long and some found person of length at least 8
has `similar` ratio strictly between 0.8 (= 4/5) and 1 while differing after
lowercasing. -/
def windowCond (simFn : Str → Str → ℚ) (found_persons : List Str)
    (potential_name : Str) : Bool :=
  if potential_name.length < 8 then false
  else found_persons.any (fun person =>
    if 8 ≤ person.length then
      let similarity := similar simFn potential_name person
      decide (4 / 5 < similarity) && decide (similarity < 1) &&
      decide (pyLower potential_name ≠ pyLower person)
    else false)

/-- Fold the windows of one page, inserting those meeting the condition. -/
def collectVariants (cond : Str → Bool) (variants : List Str)
    (windows : List Str) : List Str :=
  windows.foldl (fun acc w => if cond w then insertVariant acc w else acc) variants

/-- The second pass of `redact_pdf`: the name-variant keys collected over the
pages, in insertion order. -/
def secondPass (simFn : Str → Str → ℚ) (found_persons : List Str)
    (pages : List Str) : List Str :=
  pages.foldl
    (fun variants text =>
      collectVariants (windowCond simFn found_persons) variants
        (pageWindows text)) []

/-- A PyMuPDF rectangle.  Coordinates are embedded as rationals, so the
`±2` adjustments below are exact. -/
@[ext]
structure Rect where
  x0 : ℚ
  y0 : ℚ
  x1 : ℚ
  y1 : ℚ
deriving DecidableEq, Repr

/-- The external `page.search_for`, abstracted: page number and needle in,
matching rectangles out. -/
abbrev SearchFn := Nat → Str → List Rect

/-- `find_text_on_page` from `redact.py`: search for the stripped text. -/
def find_text_on_page (search : SearchFn) (page_num : Nat) (text : Str) :
    List Rect :=
  search page_num (pyStrip text)

/-- The in-place rectangle mutation of the redaction loop:
`x0 -= 2; y0 -= 2; x1 += 2; y1 += 2`. -/
def enlargeRect (r : Rect) : Rect :=
  ⟨r.x0 - 2, r.y0 - 2, r.x1 + 2, r.y1 + 2⟩

/-- The observable actions of the redaction pass. -/
inductive RedactEvent
  | searchFor (page : Nat) (needle : Str)
  | addRedactAnnot (page : Nat) (r : Rect) (fill : ℚ × ℚ × ℚ)
  | applyRedactions (page : Nat)
deriving DecidableEq, Repr

/-- The page an event acts on. -/
def pageOfEvent : RedactEvent → Nat
  | .searchFor p _ => p
  | .addRedactAnnot p _ _ => p
  | .applyRedactions p => p

/-- Redaction-pass events for the collected entities on one page: each tuple
of `all_results` whose recorded page index equals this page is searched for
and every hit gets a black redaction annotation on the enlarged rectangle. -/
def redactEntityEvents (search : SearchFn) (page_num : Nat)
    (all_results : List (Nat × RecognizerResult × Str)) : List RedactEvent :=
  all_results.flatMap (fun pr =>
    if pr.1 = page_num then
      RedactEvent.searchFor page_num (pyStrip pr.2.2) ::
      (find_text_on_page search page_num pr.2.2).map (fun rect =>
        RedactEvent.addRedactAnnot page_num (enlargeRect rect) (0, 0, 0))
    else [])

/-- Redaction-pass events for the name variants on one page: every variant is
searched for on this page, with the same annotation treatment. -/
def redactVariantEvents (search : SearchFn) (page_num : Nat)
    (name_variants : List Str) : List RedactEvent :=
  name_variants.flatMap (fun variant =>
    RedactEvent.searchFor page_num (pyStrip variant) ::
    (find_text_on_page search page_num variant).map (fun rect =>
      RedactEvent.addRedactAnnot page_num (enlargeRect rect) (0, 0, 0)))

/-- All events of one page of the redaction pass; `apply_redactions` comes
after every annotation of the page. -/
def pageRedactEvents (search : SearchFn)
    (all_results : List (Nat × RecognizerResult × Str))
    (name_variants : List Str) (page_num : Nat) : List RedactEvent :=
  redactEntityEvents search page_num all_results ++
  redactVariantEvents search page_num name_variants ++
  [RedactEvent.applyRedactions page_num]

/-- The redaction pass of `redact_pdf` over all pages. -/
def redactionPass (search : SearchFn) (numPages : Nat)
    (all_results : List (Nat × RecognizerResult × Str))
    (name_variants : List Str) : List RedactEvent :=
  (List.range numPages).flatMap
    (pageRedactEvents search all_results name_variants)

/-- Lines 106–111 of `redact_pdf`: default the caller's set to empty, then
union the lowercased caller terms with `DEFAULT_IGNORE_TERMS` (which is used
as written, not lowercased). -/
def effectiveIgnoreTerms (ignore_terms : Option (List Str)) : List Str :=
  ((ignore_terms.getD []).map pyLower) ++ DEFAULT_IGNORE_TERMS

/-- The environment `redact_pdf` runs in: the page texts and the external
engines, plus flags for the three exception scenarios of its `try` blocks. -/
structure PdfEnv where
  pages : List Str
  analyzer : Analyzer
  simFn : Str → Str → ℚ
  search : SearchFn
  openFails : Bool
  saveFails : Bool
  bodyRaises : Bool

/-- The pure pipeline of `redact_pdf` on an opened document: first pass,
second pass, redaction pass. -/
def redact_pdf_model (env : PdfEnv) (ignore_terms : Option (List Str)) :
    FirstPassState × List Str × List RedactEvent :=
  let terms := effectiveIgnoreTerms ignore_terms
  let fp := firstPass env.analyzer terms env.pages
  let variants := secondPass env.simFn fp.found_persons env.pages
  let events := redactionPass env.search env.pages.length fp.all_results variants
  (fp, variants, events)

/-- What ends up at the output path. -/
inductive OutputFile
  | copyOfOriginal
  | redactedDocument
deriving DecidableEq, Repr

/-- How a call to `redact_pdf` terminates. -/
inductive RunResult
  | normalReturn (output : Option OutputFile)
  | raisedNameError
deriving DecidableEq, Repr

/-- The module-level names bound in `redact.py` (imports and definitions). -/
def redact_py_globals : List Str :=
  [str "os", str "argparse", str "fitz", str "List", str "Tuple", str "Set",
   str "Dict", str "spacy", str "AnalyzerEngine", str "RecognizerRegistry",
   str "SequenceMatcher", str "shutil",
   str "DEFAULT_IGNORE_TERMS", str "setup_presidio", str "find_text_on_page",
   str "normalize_text", str "should_ignore", str "similar", str "redact_pdf",
   str "process_directory", str "parse_ignore_terms", str "main"]

/-- The outermost `except` handler of `redact_pdf`: it prints and then
evaluates the global name `traceback`; per Python semantics evaluating an
unbound global raises `NameError`, otherwise the handler completes and the
function returns normally (with nothing written to the output path). -/
def outerHandlerResult : RunResult :=
  if str "traceback" ∈ redact_py_globals then RunResult.normalReturn none
  else RunResult.raisedNameError

/-- The exception-flow skeleton of `redact_pdf`: an opening failure is
handled by copying the original and returning; an exception escaping the
body reaches the outermost handler; a saving failure is handled by copying
the original; otherwise the redacted document is saved. -/
def redact_pdf_run (env : PdfEnv) : RunResult :=
  if env.openFails then RunResult.normalReturn (some OutputFile.copyOfOriginal)
  else if env.bodyRaises then outerHandlerResult
  else if env.saveFails then RunResult.normalReturn (some OutputFile.copyOfOriginal)
  else RunResult.normalReturn (some OutputFile.redactedDocument)

/-- Observable actions of `process_directory`. -/
inductive DirEvent
  | makedirs (dir : Str)
  | redactCall (input_path output_path : Str)
deriving DecidableEq, Repr

/-- `os.path.join` for relative names. -/
def pathJoin (a b : Str) : Str := a ++ [Char.ofNat 47] ++ b

/-- Python `f-string` rendering of a natural number. -/
def natToStr (n : Nat) : Str := Nat.toDigits 10 n

/-- `filename.lower().endswith(".pdf")`. -/
def endsWithPdf (filename : Str) : Bool :=
  decide ((str ".pdf") <:+ pyLower filename)

/-- `process_directory` from `redact.py`: make the output directory, then walk
the listing with a counter incremented for every entry, calling `redact_pdf`
for the `.pdf` entries with output name `f"{count}.pdf"`. -/
def process_directory_model (input_dir output_dir : Str)
    (listing : List Str) : List DirEvent :=
  DirEvent.makedirs output_dir ::
  listing.enum.flatMap (fun p =>
    if endsWithPdf p.2 then
      [DirEvent.redactCall (pathJoin input_dir p.2)
        (pathJoin output_dir (natToStr (p.1 + 1) ++ str ".pdf"))]
    else [])

/-- `parse_ignore_terms` from `redact.py`: `None` and the empty string give
the empty set, otherwise split on commas and strip each term. -/
def parse_ignore_terms (ignore_list : Option Str) : List Str :=
  match ignore_list with
  | none => []
  | some s => if s.isEmpty then [] else (s.splitOn ',').map pyStrip

/-- The parsed command line of `redact.py` (all five accepted arguments). -/
structure Args where
  input : Str
  output : Str
  batch : Bool
  ignore : Option Str
  disable_default_ignores : Bool
deriving DecidableEq, Repr

/-- The call `main` dispatches to. -/
inductive MainCall
  | batchCall (input output : Str) (ignore_terms : List Str)
  | singleCall (input output : Str) (ignore_terms : List Str)
deriving DecidableEq, Repr

/-- `main` from `redact.py` after argument parsing: parse the ignore terms
and dispatch on `--batch`.  (The `--disable-default-ignores` handling is
commented out in the source.) -/
def main_dispatch (args : Args) : MainCall :=
  let ignore_terms := parse_ignore_terms args.ignore
  if args.batch then MainCall.batchCall args.input args.output ignore_terms
  else MainCall.singleCall args.input args.output ignore_terms

/-- The entity list of `extract.py`. -/
def extract_entities : List Str :=
  [str "PERSON", str "PHONE_NUMBER", str "EMAIL_ADDRESS"]

/-- Observable actions of the `extract.py` script. -/
inductive ExtractEvent
  | analyzeCall (text : Str) (entities : List Str) (language : Str)
  | anonymizeCall (text : Str)
  | writeTextFile (path : Str) (encoding : Str) (content : Str)
  | writePdfFile (path : Str)
deriving DecidableEq, Repr

/-- The `extract.py` script after text extraction: analyze the text for its
three entity types, anonymize, and write the result as UTF-8 text to
`redacted_resume.txt`.  (The PDF-producing path of the script is commented
out in the source.) -/
def extract_script (pdf_text : Str) (analyze : Analyzer)
    (anonymize : Str → List RecognizerResult → Str) : List ExtractEvent :=
  let results := analyze pdf_text extract_entities (str "en")
  let redacted_text := anonymize pdf_text results
  [ExtractEvent.analyzeCall pdf_text extract_entities (str "en"),
   ExtractEvent.anonymizeCall pdf_text,
   ExtractEvent.writeTextFile (str "redacted_resume.txt") (str "utf-8")
     redacted_text]

/-- Spec-side restatement of the normalization: the lowercased string with
every period, hyphen and space removed (one filter). -/
def normalize_text_spec (s : Str) : Str :=
  (pyLower s).filter (fun c => decide (c ∉ ['.', '-', ' ']))

/-- Spec-side restatement of the ignore condition of `should_ignore`:
(a) the lowercased entity is an ignore term, or (b) its normalization equals
some term's normalization, or (c) some whitespace-separated word of the
lowercased entity is a term or normalizes like one, or (d) the entity type is
`URL` and the lowercased entity contains one of the technology substrings. -/
def shouldIgnoreSpec (e : Str) (T : List Str) (t : Option Str) : Prop :=
  pyLower e ∈ T ∨
  (∃ term ∈ T, normalize_text e = normalize_text term) ∨
  (∃ word ∈ pySplit (pyLower e),
    word ∈ T ∨ ∃ term ∈ T, normalize_text word = normalize_text term) ∨
  (t = some (str "URL") ∧ ∃ sub ∈ urlTechTerms, sub <:+: pyLower e)

/-- Concrete analyzer fixture: one `PERSON` span over characters 0–9. -/
def res0 : RecognizerResult := ⟨0, 9, str "PERSON"⟩

/-- Concrete analyzer fixture returning `res0` on every page. -/
def analyzer0 : Analyzer := fun _ _ _ => [res0]

/-- Concrete similarity fixture with constant ratio 9/10. -/
def simFn0 : Str → Str → ℚ := fun _ _ => 9 / 10

/-- Concrete search fixture: one hit rectangle on every page. -/
def search0 : SearchFn := fun _ _ => [⟨0, 0, 10, 10⟩]

/-- Concrete page fixture: one page of four words. -/
def pages0 : List Str := [str "cccc dddd aaaa bbbb"]

/-- Concrete environment fixture with no failures. -/
def env0 : PdfEnv := ⟨pages0, analyzer0, simFn0, search0, false, false, false⟩

theorem pyRemoveChar_eq_filter (s : Str) (c : Char) :
    pyRemoveChar s c = s.filter (fun x => decide (x ≠ c)) := by
  induction s with
  | nil => rfl
  | cons x xs ih =>
    simp only [pyRemoveChar, List.foldr_cons, List.filter_cons] at *
    by_cases h : x = c <;> simp [h, ih]

/-- C5: `normalize_text` returns its argument lowercased with every period,
hyphen and space removed (so `normalize_text "ASP.NET" = "aspnet"`), and a
match on this normalized form is exactly what forces the period/special-
character branch of `should_ignore` to return `true`. -/
theorem C5_normalize_text :
    (∀ s : Str, normalize_text s = normalize_text_spec s) ∧
    normalize_text (str "ASP.NET") = str "aspnet" ∧
    (∀ (e : Str) (T : List Str) (t : Option Str),
      normalize_text e ∈ T.map normalize_text → should_ignore e T t = true) := by
  refine ⟨?_, by decide, ?_⟩
  · intro s
    unfold normalize_text normalize_text_spec
    rw [pyRemoveChar_eq_filter, pyRemoveChar_eq_filter, pyRemoveChar_eq_filter,
      List.filter_filter, List.filter_filter]
    apply List.filter_congr
    intro c _
    by_cases h1 : c = '.' <;> by_cases h2 : c = '-' <;> by_cases h3 : c = ' ' <;>
      simp [h1, h2, h3]
  · intro e T t h
    unfold should_ignore
    by_cases h1 : pyLower e ∈ T <;> simp [h1, h]

/-- Witness for C5: a concrete normalized-form match (`"ASP.NET"` against the
term `"asp.net"`) on which `should_ignore` returns `true`. -/
theorem C5_witness :
    (normalize_text (str "ASP.NET") ∈ [str "asp.net"].map normalize_text) ∧
    should_ignore (str "ASP.NET") [str "asp.net"] none = true :=
  ⟨by decide, C5_normalize_text.2.2 (str "ASP.NET") [str "asp.net"] none (by decide)⟩
theorem should_ignore_iff (e : Str) (T : List Str) (t : Option Str) :
    should_ignore e T t = true ↔ shouldIgnoreSpec e T t := by
  have hb : (normalize_text e ∈ T.map normalize_text) ↔
      (∃ term ∈ T, normalize_text e = normalize_text term) := by
    simp only [List.mem_map]
    constructor
    · rintro ⟨term, hterm, heq⟩; exact ⟨term, hterm, heq.symm⟩
    · rintro ⟨term, hterm, heq⟩; exact ⟨term, hterm, heq.symm⟩
  have hc : ((pySplit (pyLower e)).any (fun word =>
      decide (word ∈ T) ||
      decide (normalize_text word ∈ T.map normalize_text)) = true) ↔
      (∃ word ∈ pySplit (pyLower e),
        word ∈ T ∨ ∃ term ∈ T, normalize_text word = normalize_text term) := by
    simp only [List.any_eq_true, Bool.or_eq_true, decide_eq_true_eq, List.mem_map]
    constructor
    · rintro ⟨w, hw, hcase | ⟨term, hterm, heq⟩⟩
      · exact ⟨w, hw, Or.inl hcase⟩
      · exact ⟨w, hw, Or.inr ⟨term, hterm, heq.symm⟩⟩
    · rintro ⟨w, hw, hcase | ⟨term, hterm, heq⟩⟩
      · exact ⟨w, hw, Or.inl hcase⟩
      · exact ⟨w, hw, Or.inr ⟨term, hterm, heq.symm⟩⟩
  have hd : (urlTechTerms.any
      (fun tech_term => decide (tech_term <:+: pyLower e)) = true) ↔
      (∃ sub ∈ urlTechTerms, sub <:+: pyLower e) := by
    simp [List.any_eq_true]
  simp only [should_ignore, shouldIgnoreSpec]
  split_ifs with h1 h2 h3 h4
  · exact iff_of_true rfl (Or.inl h1)
  · exact iff_of_true rfl (Or.inr (Or.inl (hb.mp h2)))
  · exact iff_of_true rfl (Or.inr (Or.inr (Or.inl (hc.mp h3))))
  · constructor
    · intro h
      exact Or.inr (Or.inr (Or.inr ⟨h4, hd.mp h⟩))
    · rintro (h | h | h | ⟨-, h⟩)
      · exact absurd h h1
      · exact absurd (hb.mpr h) h2
      · exact absurd (hc.mpr h) h3
      · exact hd.mpr h
  · refine iff_of_false (by simp) ?_
    rintro (h | h | h | ⟨ht, h⟩)
    · exact h1 h
    · exact h2 (hb.mpr h)
    · exact h3 (hc.mpr h)
    · exact h4 ht

theorem mem_foldl_processResult (terms : List Str) (pn : Nat) (text : Str) :
    ∀ (rs : List RecognizerResult) (st : FirstPassState)
      (x : Nat × RecognizerResult × Str),
      (x ∈ (rs.foldl (processResult terms pn text) st).all_results ↔
       x ∈ st.all_results ∨ ∃ r ∈ rs,
         x = (pn, r, pySlice text r.start r.stop) ∧
         should_ignore (pySlice text r.start r.stop) terms
           (some r.entity_type) = false) := by
  intro rs
  induction rs with
  | nil => intro st x; simp
  | cons r rs ih =>
    intro st x
    rw [List.foldl_cons, ih]
    simp only [processResult]
    by_cases h : should_ignore (pySlice text r.start r.stop) terms
        (some r.entity_type) = true
    · simp only [if_pos h]
      constructor
      · rintro (hx | hx)
        · exact Or.inl hx
        · rcases hx with ⟨r2, hr2, hx⟩; exact Or.inr ⟨r2, List.mem_cons_of_mem r hr2, hx⟩
      · rintro (hx | ⟨r2, hr2, hx, hfalse⟩)
        · exact Or.inl hx
        · rcases List.mem_cons.mp hr2 with rfl | hr2
          · rw [h] at hfalse; exact absurd hfalse (by simp)
          · exact Or.inr ⟨r2, hr2, hx, hfalse⟩
    · rw [Bool.not_eq_true] at h
      have hneg : ¬(should_ignore (pySlice text r.start r.stop) terms
          (some r.entity_type) = true) := by simp [h]
      simp only [if_neg hneg]
      simp only [List.mem_append, List.mem_singleton]
      constructor
      · rintro ((hx | hx) | hx)
        · exact Or.inl hx
        · exact Or.inr ⟨r, List.mem_cons_self r rs, hx, h⟩
        · rcases hx with ⟨r2, hr2, hx⟩; exact Or.inr ⟨r2, List.mem_cons_of_mem r hr2, hx⟩
      · rintro (hx | ⟨r2, hr2, hx, hfalse⟩)
        · exact Or.inl (Or.inl hx)
        · rcases List.mem_cons.mp hr2 with rfl | hr2
          · exact Or.inl (Or.inr hx)
          · exact Or.inr ⟨r2, hr2, hx, hfalse⟩

theorem mem_foldl_processPage (analyzer : Analyzer) (terms : List Str) :
    ∀ (l : List (Nat × Str)) (st : FirstPassState)
      (x : Nat × RecognizerResult × Str),
      (x ∈ (l.foldl (processPage analyzer terms) st).all_results ↔
       x ∈ st.all_results ∨ ∃ p ∈ l,
         ∃ r ∈ analyzer p.2 entities_to_detect (str "en"),
           x = (p.1, r, pySlice p.2 r.start r.stop) ∧
           should_ignore (pySlice p.2 r.start r.stop) terms
             (some r.entity_type) = false) := by
  intro l
  induction l with
  | nil => intro st x; simp
  | cons p l ih =>
    intro st x
    rw [List.foldl_cons, ih]
    simp only [processPage, mem_foldl_processResult]
    constructor
    · rintro ((hx | hx) | hx)
      · exact Or.inl hx
      · rcases hx with ⟨r, hr, hx⟩
        exact Or.inr ⟨p, List.mem_cons_self p l, r, hr, hx⟩
      · rcases hx with ⟨p2, hp2, hx⟩
        exact Or.inr ⟨p2, List.mem_cons_of_mem p hp2, hx⟩
    · rintro (hx | ⟨p2, hp2, hx⟩)
      · exact Or.inl (Or.inl hx)
      · rcases List.mem_cons.mp hp2 with rfl | hp2
        · exact Or.inl (Or.inr hx)
        · exact Or.inr ⟨p2, hp2, hx⟩

theorem mem_firstPass_all_results (analyzer : Analyzer) (terms : List Str)
    (pages : List Str) (x : Nat × RecognizerResult × Str) :
    x ∈ (firstPass analyzer terms pages).all_results ↔
    ∃ p ∈ pages.enum, ∃ r ∈ analyzer p.2 entities_to_detect (str "en"),
      x = (p.1, r, pySlice p.2 r.start r.stop) ∧
      should_ignore (pySlice p.2 r.start r.stop) terms
        (some r.entity_type) = false := by
  unfold firstPass
  rw [mem_foldl_processPage]
  simp

/-- C1: `should_ignore` returns `true` exactly when (a) the lowercased entity
is an ignore term, or (b) its normalization equals some term's normalization,
or (c) some whitespace-separated word of the lowercased entity is a term or
normalizes like a term, or (d) the entity type is `URL` and the lowercased
entity contains one of `.net`, `asp`, `flask`, `django`, `rails`; and every
analyzer result for which it returns `true` is excluded from the collected
entities of the first pass. -/
theorem C1_should_ignore :
    (∀ (e : Str) (T : List Str) (t : Option Str),
      should_ignore e T t = true ↔ shouldIgnoreSpec e T t) ∧
    (∀ (analyzer : Analyzer) (terms pages : List Str)
       (pn : Nat) (res : RecognizerResult) (et : Str),
      (pn, res, et) ∈ (firstPass analyzer terms pages).all_results →
      should_ignore et terms (some res.entity_type) = false) := by
  refine ⟨should_ignore_iff, ?_⟩
  intro analyzer terms pages pn res et hmem
  rcases (mem_firstPass_all_results analyzer terms pages _).mp hmem with
    ⟨p, hp, r, hr, heq, hfalse⟩
  rcases heq with ⟨rfl, rfl, rfl⟩
  exact hfalse

/-- Witness for C1: in the concrete fixture the person span `"cccc dddd"` is
collected on page 0 and is indeed not ignored. -/
theorem C1_witness :
    ((0, res0, str "cccc dddd") ∈
      (firstPass analyzer0 (effectiveIgnoreTerms none) pages0).all_results) ∧
    should_ignore (str "cccc dddd") (effectiveIgnoreTerms none)
      (some res0.entity_type) = false :=
  ⟨by decide, C1_should_ignore.2 analyzer0 (effectiveIgnoreTerms none) pages0
    0 res0 (str "cccc dddd") (by decide)⟩
theorem foldl_processResult_calls (terms : List Str) (pn : Nat) (text : Str) :
    ∀ (rs : List RecognizerResult) (st : FirstPassState),
      (rs.foldl (processResult terms pn text) st).calls = st.calls := by
  intro rs
  induction rs with
  | nil => intro st; rfl
  | cons r rs ih =>
    intro st
    rw [List.foldl_cons, ih]
    simp only [processResult]
    split_ifs <;> rfl

theorem foldl_processPage_calls (analyzer : Analyzer) (terms : List Str) :
    ∀ (l : List (Nat × Str)) (st : FirstPassState),
      (l.foldl (processPage analyzer terms) st).calls =
        st.calls ++ l.map (fun p => ⟨p.2, entities_to_detect, str "en"⟩) := by
  intro l
  induction l with
  | nil => intro st; simp
  | cons p l ih =>
    intro st
    rw [List.foldl_cons, ih]
    simp only [processPage, foldl_processResult_calls]
    simp

theorem firstPass_calls (analyzer : Analyzer) (terms pages : List Str) :
    (firstPass analyzer terms pages).calls =
      pages.map (fun text => ⟨text, entities_to_detect, str "en"⟩) := by
  unfold firstPass
  rw [foldl_processPage_calls]
  simp only [List.nil_append]
  rw [show (fun p : Nat × Str =>
      (⟨p.2, entities_to_detect, str "en"⟩ : AnalyzeCall)) =
    (fun text : Str => (⟨text, entities_to_detect, str "en"⟩ : AnalyzeCall)) ∘
      Prod.snd from rfl, ← List.map_map, List.enum_map_snd]

/-- C4: the first pass of `redact_pdf` makes, for every page in order, exactly
one analyze call with entity list PERSON, EMAIL_ADDRESS, PHONE_NUMBER, URL
and language "en"; consequently, when the analyzer only returns spans of
requested types, every collected candidate has one of those four types. -/
theorem C4_analyze_calls :
    (∀ (analyzer : Analyzer) (terms pages : List Str),
      (firstPass analyzer terms pages).calls =
        pages.map (fun text =>
          ⟨text, [str "PERSON", str "EMAIL_ADDRESS", str "PHONE_NUMBER",
            str "URL"], str "en"⟩)) ∧
    (∀ (analyzer : Analyzer) (terms pages : List Str),
      (∀ (text : Str), ∀ r ∈ analyzer text entities_to_detect (str "en"),
        r.entity_type ∈ entities_to_detect) →
      ∀ (pn : Nat) (res : RecognizerResult) (et : Str),
        (pn, res, et) ∈ (firstPass analyzer terms pages).all_results →
        res.entity_type ∈
          [str "PERSON", str "EMAIL_ADDRESS", str "PHONE_NUMBER",
            str "URL"]) := by
  constructor
  · intro analyzer terms pages
    rw [firstPass_calls]
    rfl
  · intro analyzer terms pages hana pn res et hmem
    rcases (mem_firstPass_all_results analyzer terms pages _).mp hmem with
      ⟨p, hp, r, hr, heq, -⟩
    rcases heq with ⟨rfl, rfl, rfl⟩
    exact hana p.2 _ hr

/-- Witness for C4: the concrete analyzer fixture only returns requested
types, and the collected fixture span's type is among the four. -/
theorem C4_witness :
    res0.entity_type ∈
      [str "PERSON", str "EMAIL_ADDRESS", str "PHONE_NUMBER", str "URL"] :=
  C4_analyze_calls.2 analyzer0 (effectiveIgnoreTerms none) pages0
    (by
      intro text r hr
      simp only [analyzer0, List.mem_singleton] at hr
      subst hr
      decide)
    0 res0 (str "cccc dddd") (by decide)
theorem mem_insertVariant (vs : List Str) (v w : Str) :
    w ∈ insertVariant vs v ↔ w ∈ vs ∨ w = v := by
  unfold insertVariant
  split_ifs with h
  · constructor
    · exact Or.inl
    · rintro (hw | rfl)
      · exact hw
      · exact h
  · simp [List.mem_append]

theorem mem_collectVariants (cond : Str → Bool) :
    ∀ (ws vs : List Str) (w : Str),
      w ∈ collectVariants cond vs ws ↔
        w ∈ vs ∨ (w ∈ ws ∧ cond w = true) := by
  intro ws
  induction ws with
  | nil => intro vs w; simp [collectVariants]
  | cons x ws ih =>
    intro vs w
    rw [show collectVariants cond vs (x :: ws) =
      collectVariants cond (if cond x = true then insertVariant vs x else vs)
        ws from rfl, ih]
    by_cases hx : cond x = true
    · rw [if_pos hx, mem_insertVariant]
      constructor
      · rintro ((hw | rfl) | hw)
        · exact Or.inl hw
        · exact Or.inr ⟨List.mem_cons_self _ _, hx⟩
        · exact Or.inr ⟨List.mem_cons_of_mem _ hw.1, hw.2⟩
      · rintro (hw | ⟨hmem, hcond⟩)
        · exact Or.inl (Or.inl hw)
        · rcases List.mem_cons.mp hmem with rfl | hmem
          · exact Or.inl (Or.inr rfl)
          · exact Or.inr ⟨hmem, hcond⟩
    · rw [if_neg hx]
      constructor
      · rintro (hw | hw)
        · exact Or.inl hw
        · exact Or.inr ⟨List.mem_cons_of_mem _ hw.1, hw.2⟩
      · rintro (hw | ⟨hmem, hcond⟩)
        · exact Or.inl hw
        · rcases List.mem_cons.mp hmem with rfl | hmem
          · exact absurd hcond hx
          · exact Or.inr ⟨hmem, hcond⟩

theorem mem_secondPassAux (cond : Str → Bool) :
    ∀ (pages vs : List Str) (w : Str),
      w ∈ pages.foldl (fun variants text =>
          collectVariants cond variants (pageWindows text)) vs ↔
      w ∈ vs ∨ ((∃ text ∈ pages, w ∈ pageWindows text) ∧ cond w = true) := by
  intro pages
  induction pages with
  | nil => intro vs w; simp
  | cons t pages ih =>
    intro vs w
    rw [List.foldl_cons, ih, mem_collectVariants]
    constructor
    · rintro ((hw | ⟨hmem, hcond⟩) | ⟨⟨text, htext, hmem⟩, hcond⟩)
      · exact Or.inl hw
      · exact Or.inr ⟨⟨t, List.mem_cons_self _ _, hmem⟩, hcond⟩
      · exact Or.inr ⟨⟨text, List.mem_cons_of_mem _ htext, hmem⟩, hcond⟩
    · rintro (hw | ⟨⟨text, htext, hmem⟩, hcond⟩)
      · exact Or.inl (Or.inl hw)
      · rcases List.mem_cons.mp htext with rfl | htext
        · exact Or.inl (Or.inr ⟨hmem, hcond⟩)
        · exact Or.inr ⟨⟨text, htext, hmem⟩, hcond⟩

theorem mem_secondPass (simFn : Str → Str → ℚ) (persons pages : List Str)
    (w : Str) :
    w ∈ secondPass simFn persons pages ↔
      (∃ text ∈ pages, w ∈ pageWindows text) ∧
      windowCond simFn persons w = true := by
  unfold secondPass
  rw [mem_secondPassAux]
  simp

theorem mem_pageWindows (text : Str) (w : Str) :
    w ∈ pageWindows text ↔
      ∃ i n, 2 ≤ n ∧ n ≤ 4 ∧ i + n ≤ (pySplit text).length ∧
        w = joinSpace (((pySplit text).drop i).take n) := by
  unfold pageWindows
  simp only [List.mem_flatMap, List.mem_range, List.mem_filterMap]
  constructor
  · rintro ⟨i, hi, m, hm, hsome⟩
    have hm24 : 2 ≤ m ∧ m ≤ 4 := by
      simp only [List.mem_cons, List.mem_singleton, List.not_mem_nil,
        or_false] at hm
      omega
    by_cases hle : i + m ≤ (pySplit text).length
    · rw [if_pos hle] at hsome
      exact ⟨i, m, hm24.1, hm24.2, hle, (Option.some.injEq .. ▸ hsome).symm⟩
    · rw [if_neg hle] at hsome
      exact absurd hsome (by simp)
  · rintro ⟨i, m, h2, h4, hle, rfl⟩
    refine ⟨i, by omega, m, ?_, ?_⟩
    · have : m = 2 ∨ m = 3 ∨ m = 4 := by omega
      rcases this with rfl | rfl | rfl <;> simp
    · rw [if_pos hle]

theorem windowCond_iff (simFn : Str → Str → ℚ) (persons : List Str)
    (w : Str) :
    windowCond simFn persons w = true ↔
      8 ≤ w.length ∧ ∃ p ∈ persons, 8 ≤ p.length ∧
        4 / 5 < similar simFn w p ∧ similar simFn w p < 1 ∧
        pyLower w ≠ pyLower p := by
  unfold windowCond
  split_ifs with hlen
  · constructor
    · intro h; exact absurd h (by simp)
    · rintro ⟨h8, -⟩; omega
  · rw [List.any_eq_true]
    constructor
    · rintro ⟨p, hp, hcond⟩
      refine ⟨by omega, p, hp, ?_⟩
      split_ifs at hcond with hplen
      simp only [Bool.and_eq_true, decide_eq_true_eq] at hcond
      exact ⟨hplen, hcond.1.1, hcond.1.2, hcond.2⟩
    · rintro ⟨-, p, hp, hplen, hlt, hgt, hne⟩
      refine ⟨p, hp, ?_⟩
      rw [if_pos hplen]
      simp only [Bool.and_eq_true, decide_eq_true_eq]
      exact ⟨⟨hlt, hgt⟩, hne⟩

/-- C2: in the second pass of `redact_pdf`, for every page and every window of
`n` consecutive whitespace-separated words with `2 ≤ n ≤ 4`, the space-joined
window is recorded as a name variant exactly when it is at least 8 characters
long and some `PERSON` entity collected in the first pass is at least 8
characters long, has case-insensitive similarity ratio with the window
strictly between 0.8 and 1.0, and differs from the window after lowercasing. -/
theorem C2_name_variants (env : PdfEnv) (ignore_terms : Option (List Str))
    (text : Str) (i n : Nat)
    (htext : text ∈ env.pages) (h2 : 2 ≤ n) (h4 : n ≤ 4)
    (hfit : i + n ≤ (pySplit text).length) :
    joinSpace (((pySplit text).drop i).take n) ∈
      secondPass env.simFn
        (firstPass env.analyzer (effectiveIgnoreTerms ignore_terms)
          env.pages).found_persons env.pages ↔
      8 ≤ (joinSpace (((pySplit text).drop i).take n)).length ∧
      ∃ p ∈ (firstPass env.analyzer (effectiveIgnoreTerms ignore_terms)
          env.pages).found_persons, 8 ≤ p.length ∧
        4 / 5 < similar env.simFn (joinSpace (((pySplit text).drop i).take n)) p ∧
        similar env.simFn (joinSpace (((pySplit text).drop i).take n)) p < 1 ∧
        pyLower (joinSpace (((pySplit text).drop i).take n)) ≠ pyLower p := by
  rw [mem_secondPass, windowCond_iff]
  constructor
  · exact fun h => h.2
  · intro h
    exact ⟨⟨text, htext,
      (mem_pageWindows text _).mpr ⟨i, n, h2, h4, hfit, rfl⟩⟩, h⟩

/-- Witness for C2: in the concrete fixture the window `"aaaa bbbb"` of the
single page is recorded, the collected person `"cccc dddd"` being 9
characters long with constant ratio 9/10 and a different lowercasing. -/
theorem C2_witness :
    (str "cccc dddd aaaa bbbb" ∈ pages0) ∧
    (joinSpace (((pySplit (str "cccc dddd aaaa bbbb")).drop 2).take 2) ∈
      secondPass env0.simFn
        (firstPass env0.analyzer (effectiveIgnoreTerms none)
          env0.pages).found_persons env0.pages ↔
      8 ≤ (joinSpace (((pySplit (str "cccc dddd aaaa bbbb")).drop 2).take 2)).length ∧
      ∃ p ∈ (firstPass env0.analyzer (effectiveIgnoreTerms none)
          env0.pages).found_persons, 8 ≤ p.length ∧
        4 / 5 < similar env0.simFn
          (joinSpace (((pySplit (str "cccc dddd aaaa bbbb")).drop 2).take 2)) p ∧
        similar env0.simFn
          (joinSpace (((pySplit (str "cccc dddd aaaa bbbb")).drop 2).take 2)) p < 1 ∧
        pyLower (joinSpace (((pySplit (str "cccc dddd aaaa bbbb")).drop 2).take 2)) ≠
          pyLower p) :=
  ⟨by decide, C2_name_variants env0 none (str "cccc dddd aaaa bbbb") 2 2
    (by decide) (by decide) (by decide) (by decide)⟩
theorem mem_redactEntityEvents (search : SearchFn) (pn : Nat)
    (A : List (Nat × RecognizerResult × Str)) (e : RedactEvent) :
    e ∈ redactEntityEvents search pn A ↔
      ∃ pr ∈ A, pr.1 = pn ∧
        (e = RedactEvent.searchFor pn (pyStrip pr.2.2) ∨
         ∃ r ∈ search pn (pyStrip pr.2.2),
           e = RedactEvent.addRedactAnnot pn (enlargeRect r) (0, 0, 0)) := by
  unfold redactEntityEvents find_text_on_page
  simp only [List.mem_flatMap]
  constructor
  · rintro ⟨pr, hpr, he⟩
    by_cases h : pr.1 = pn
    · rw [if_pos h] at he
      rcases List.mem_cons.mp he with rfl | he
      · exact ⟨pr, hpr, h, Or.inl rfl⟩
      · rcases List.mem_map.mp he with ⟨r, hr, rfl⟩
        exact ⟨pr, hpr, h, Or.inr ⟨r, hr, rfl⟩⟩
    · rw [if_neg h] at he
      exact absurd he (List.not_mem_nil e)
  · rintro ⟨pr, hpr, h, rfl | ⟨r, hr, rfl⟩⟩
    · refine ⟨pr, hpr, ?_⟩
      rw [if_pos h]
      exact List.mem_cons_self _ _
    · refine ⟨pr, hpr, ?_⟩
      rw [if_pos h]
      exact List.mem_cons_of_mem _ (List.mem_map.mpr ⟨r, hr, rfl⟩)

theorem mem_redactVariantEvents (search : SearchFn) (pn : Nat)
    (V : List Str) (e : RedactEvent) :
    e ∈ redactVariantEvents search pn V ↔
      ∃ v ∈ V,
        (e = RedactEvent.searchFor pn (pyStrip v) ∨
         ∃ r ∈ search pn (pyStrip v),
           e = RedactEvent.addRedactAnnot pn (enlargeRect r) (0, 0, 0)) := by
  unfold redactVariantEvents find_text_on_page
  simp only [List.mem_flatMap, List.mem_cons, List.mem_map]
  constructor
  · rintro ⟨v, hv, rfl | ⟨r, hr, rfl⟩⟩
    · exact ⟨v, hv, Or.inl rfl⟩
    · exact ⟨v, hv, Or.inr ⟨r, hr, rfl⟩⟩
  · rintro ⟨v, hv, rfl | ⟨r, hr, rfl⟩⟩
    · exact ⟨v, hv, Or.inl rfl⟩
    · exact ⟨v, hv, Or.inr ⟨r, hr, rfl⟩⟩

theorem pageOf_mem_pageRedactEvents (search : SearchFn)
    (A : List (Nat × RecognizerResult × Str)) (V : List Str) (pn : Nat) :
    ∀ e ∈ pageRedactEvents search A V pn, pageOfEvent e = pn := by
  intro e he
  unfold pageRedactEvents at he
  rcases List.mem_append.mp he with he | he
  · rcases List.mem_append.mp he with he | he
    · rcases (mem_redactEntityEvents search pn A e).mp he with
        ⟨pr, -, -, rfl | ⟨r, -, rfl⟩⟩ <;> rfl
    · rcases (mem_redactVariantEvents search pn V e).mp he with
        ⟨v, -, rfl | ⟨r, -, rfl⟩⟩ <;> rfl
  · rw [List.mem_singleton.mp he]
    rfl

theorem mem_redactionPass (search : SearchFn) (N : Nat)
    (A : List (Nat × RecognizerResult × Str)) (V : List Str)
    (e : RedactEvent) :
    e ∈ redactionPass search N A V ↔
      ∃ pn, pn < N ∧ e ∈ pageRedactEvents search A V pn := by
  unfold redactionPass
  simp [List.mem_flatMap, List.mem_range]

theorem filter_flatMap_page (g : Nat → List RedactEvent) (pn : Nat) :
    ∀ l : List Nat, (∀ k ∈ l, ∀ e ∈ g k, pageOfEvent e = k) → l.Nodup →
      pn ∈ l →
      (l.flatMap g).filter (fun e => decide (pageOfEvent e = pn)) = g pn := by
  intro l
  induction l with
  | nil => intro _ _ h; exact absurd h (List.not_mem_nil pn)
  | cons k l ih =>
    intro htag hnd hmem
    rw [List.flatMap_cons, List.filter_append]
    rcases List.mem_cons.mp hmem with rfl | hmem2
    · have h1 : (g pn).filter (fun e => decide (pageOfEvent e = pn)) = g pn :=
        List.filter_eq_self.mpr (fun e he =>
          decide_eq_true (htag pn (List.mem_cons_self _ _) e he))
      have hpn_not : pn ∉ l := (List.nodup_cons.mp hnd).1
      have h2 : (l.flatMap g).filter
          (fun e => decide (pageOfEvent e = pn)) = [] := by
        rw [List.filter_eq_nil_iff]
        intro e he
        rcases List.mem_flatMap.mp he with ⟨k2, hk2, he2⟩
        have hk2e := htag k2 (List.mem_cons_of_mem _ hk2) e he2
        simp only [hk2e, decide_eq_true_eq]
        intro hcontra
        exact hpn_not (hcontra ▸ hk2)
      rw [h1, h2, List.append_nil]
    · have hk : k ≠ pn := fun h => (List.nodup_cons.mp hnd).1 (h ▸ hmem2)
      have h1 : (g k).filter (fun e => decide (pageOfEvent e = pn)) = [] := by
        rw [List.filter_eq_nil_iff]
        intro e he
        have hke := htag k (List.mem_cons_self _ _) e he
        simp [hke, hk]
      rw [h1, List.nil_append]
      exact ih (fun k2 hk2 => htag k2 (List.mem_cons_of_mem _ hk2))
        (List.nodup_cons.mp hnd).2 hmem2

theorem filter_redactionPass_page (search : SearchFn) (N : Nat)
    (A : List (Nat × RecognizerResult × Str)) (V : List Str) (pn : Nat)
    (h : pn < N) :
    (redactionPass search N A V).filter
        (fun e => decide (pageOfEvent e = pn)) =
      pageRedactEvents search A V pn := by
  unfold redactionPass
  exact filter_flatMap_page _ pn (List.range N)
    (fun k _ => pageOf_mem_pageRedactEvents search A V k)
    (List.nodup_range N) (List.mem_range.mpr h)

theorem applyRedactions_not_mem_annots (search : SearchFn)
    (A : List (Nat × RecognizerResult × Str)) (V : List Str) (pn : Nat) :
    RedactEvent.applyRedactions pn ∉
      redactEntityEvents search pn A ++ redactVariantEvents search pn V := by
  intro h
  rcases List.mem_append.mp h with h | h
  · rcases (mem_redactEntityEvents search pn A _).mp h with
      ⟨pr, -, -, he | ⟨r, -, he⟩⟩ <;> cases he
  · rcases (mem_redactVariantEvents search pn V _).mp h with
      ⟨v, -, he | ⟨r, -, he⟩⟩ <;> cases he

/-- C3: in the redaction pass, a text search for a collected entity happens
exactly on the page where it was detected while a search for a name variant
happens on every page; an annotation event exists exactly for the search
hits, on a rectangle enlarged by exactly 2 units on all four sides and with
black fill (0,0,0); and among the events of each page, `apply_redactions`
occurs exactly once, after every annotation of that page. -/
theorem C3_redaction_pass (search : SearchFn) (N : Nat)
    (A : List (Nat × RecognizerResult × Str)) (V : List Str) :
    (∀ (pn : Nat) (needle : Str),
      RedactEvent.searchFor pn needle ∈ redactionPass search N A V ↔
        pn < N ∧ ((∃ pr ∈ A, pr.1 = pn ∧ needle = pyStrip pr.2.2) ∨
                  (∃ v ∈ V, needle = pyStrip v))) ∧
    (∀ (pn : Nat) (r : Rect) (fill : ℚ × ℚ × ℚ),
      RedactEvent.addRedactAnnot pn r fill ∈ redactionPass search N A V ↔
        pn < N ∧ fill = (0, 0, 0) ∧
        ∃ r0, ((∃ pr ∈ A, pr.1 = pn ∧ r0 ∈ search pn (pyStrip pr.2.2)) ∨
               (∃ v ∈ V, r0 ∈ search pn (pyStrip v))) ∧
          r.x0 = r0.x0 - 2 ∧ r.y0 = r0.y0 - 2 ∧
          r.x1 = r0.x1 + 2 ∧ r.y1 = r0.y1 + 2) ∧
    (∀ pn : Nat, pn < N →
      ∃ pre, (redactionPass search N A V).filter
          (fun e => decide (pageOfEvent e = pn)) =
        pre ++ [RedactEvent.applyRedactions pn] ∧
        RedactEvent.applyRedactions pn ∉ pre) := by
  refine ⟨?_, ?_, ?_⟩
  · intro pn needle
    rw [mem_redactionPass]
    constructor
    · rintro ⟨pn2, hlt, he⟩
      have htag := pageOf_mem_pageRedactEvents search A V pn2 _ he
      simp only [pageOfEvent] at htag
      subst htag
      refine ⟨hlt, ?_⟩
      unfold pageRedactEvents at he
      rcases List.mem_append.mp he with he | he
      · rcases List.mem_append.mp he with he | he
        · rcases (mem_redactEntityEvents search pn A _).mp he with
            ⟨pr, hpr, hp1, heq | ⟨r, hr, heq⟩⟩
          · cases heq
            exact Or.inl ⟨pr, hpr, hp1, rfl⟩
          · cases heq
        · rcases (mem_redactVariantEvents search pn V _).mp he with
            ⟨v, hv, heq | ⟨r, hr, heq⟩⟩
          · cases heq
            exact Or.inr ⟨v, hv, rfl⟩
          · cases heq
      · cases List.mem_singleton.mp he
    · rintro ⟨hlt, hcase⟩
      refine ⟨pn, hlt, ?_⟩
      unfold pageRedactEvents
      rcases hcase with ⟨pr, hpr, hp1, rfl⟩ | ⟨v, hv, rfl⟩
      · exact List.mem_append.mpr (Or.inl (List.mem_append.mpr (Or.inl
          ((mem_redactEntityEvents search pn A _).mpr
            ⟨pr, hpr, hp1, Or.inl rfl⟩))))
      · exact List.mem_append.mpr (Or.inl (List.mem_append.mpr (Or.inr
          ((mem_redactVariantEvents search pn V _).mpr
            ⟨v, hv, Or.inl rfl⟩))))
  · intro pn r fill
    rw [mem_redactionPass]
    constructor
    · rintro ⟨pn2, hlt, he⟩
      have htag := pageOf_mem_pageRedactEvents search A V pn2 _ he
      simp only [pageOfEvent] at htag
      subst htag
      refine ⟨hlt, ?_⟩
      unfold pageRedactEvents at he
      rcases List.mem_append.mp he with he | he
      · rcases List.mem_append.mp he with he | he
        · rcases (mem_redactEntityEvents search pn A _).mp he with
            ⟨pr, hpr, hp1, heq | ⟨r0, hr0, heq⟩⟩
          · cases heq
          · cases heq
            exact ⟨rfl, r0, Or.inl ⟨pr, hpr, hp1, hr0⟩, rfl, rfl, rfl, rfl⟩
        · rcases (mem_redactVariantEvents search pn V _).mp he with
            ⟨v, hv, heq | ⟨r0, hr0, heq⟩⟩
          · cases heq
          · cases heq
            exact ⟨rfl, r0, Or.inr ⟨v, hv, hr0⟩, rfl, rfl, rfl, rfl⟩
      · cases List.mem_singleton.mp he
    · rintro ⟨hlt, rfl, r0, hcase, hx0, hy0, hx1, hy1⟩
      have hr : r = enlargeRect r0 := Rect.ext hx0 hy0 hx1 hy1
      subst hr
      refine ⟨pn, hlt, ?_⟩
      unfold pageRedactEvents
      rcases hcase with ⟨pr, hpr, hp1, hr0⟩ | ⟨v, hv, hr0⟩
      · exact List.mem_append.mpr (Or.inl (List.mem_append.mpr (Or.inl
          ((mem_redactEntityEvents search pn A _).mpr
            ⟨pr, hpr, hp1, Or.inr ⟨r0, hr0, rfl⟩⟩))))
      · exact List.mem_append.mpr (Or.inl (List.mem_append.mpr (Or.inr
          ((mem_redactVariantEvents search pn V _).mpr
            ⟨v, hv, Or.inr ⟨r0, hr0, rfl⟩⟩))))
  · intro pn hlt
    refine ⟨redactEntityEvents search pn A ++ redactVariantEvents search pn V,
      ?_, applyRedactions_not_mem_annots search A V pn⟩
    rw [filter_redactionPass_page search N A V pn hlt]
    unfold pageRedactEvents
    rw [List.append_assoc]

/-- Witness for C3: on the concrete one-page fixture the filtered event list
of page 0 ends with its unique `apply_redactions` event. -/
theorem C3_witness :
    ∃ pre, (redactionPass search0 1 [(0, res0, str " hi ")]
        [str "vv"]).filter (fun e => decide (pageOfEvent e = 0)) =
      pre ++ [RedactEvent.applyRedactions 0] ∧
      RedactEvent.applyRedactions 0 ∉ pre :=
  (C3_redaction_pass search0 1 [(0, res0, str " hi ")] [str "vv"]).2.2 0
    (by decide)
/-- C6: if opening the input PDF raises an exception, or if saving the
redacted document raises an exception, `redact_pdf` copies the original
(unredacted) input file to the output path and returns normally, so the
output file is a byte-for-byte copy of the original with all its PII. -/
theorem C6_failure_copies_original (env : PdfEnv) :
    (env.openFails = true →
      redact_pdf_run env =
        RunResult.normalReturn (some OutputFile.copyOfOriginal)) ∧
    (env.openFails = false → env.bodyRaises = false → env.saveFails = true →
      redact_pdf_run env =
        RunResult.normalReturn (some OutputFile.copyOfOriginal)) := by
  constructor
  · intro h
    simp [redact_pdf_run, h]
  · intro h1 h2 h3
    simp [redact_pdf_run, h1, h2, h3]

/-- Witness for C6: concrete runs with a failing open and with a failing
save, both ending with the original copied to the output path. -/
theorem C6_witness :
    redact_pdf_run { env0 with openFails := true } =
      RunResult.normalReturn (some OutputFile.copyOfOriginal) ∧
    redact_pdf_run { env0 with saveFails := true } =
      RunResult.normalReturn (some OutputFile.copyOfOriginal) :=
  ⟨(C6_failure_copies_original { env0 with openFails := true }).1 rfl,
   (C6_failure_copies_original { env0 with saveFails := true }).2 rfl rfl rfl⟩

/-- C7: the effective ignore set of `redact_pdf` is the union of the
lowercased caller-supplied terms and `DEFAULT_IGNORE_TERMS` (also when the
caller supplies none), and `main` dispatches identically whatever the value
of the accepted `--disable-default-ignores` flag, which is never consulted. -/
theorem C7_ignore_terms_union :
    (∀ (args : Args) (b : Bool),
      main_dispatch { args with disable_default_ignores := b } =
        main_dispatch args) ∧
    (∀ (ts : List Str) (x : Str),
      x ∈ effectiveIgnoreTerms (some ts) ↔
        (∃ t ∈ ts, x = pyLower t) ∨ x ∈ DEFAULT_IGNORE_TERMS) ∧
    (∀ x : Str, x ∈ effectiveIgnoreTerms none ↔ x ∈ DEFAULT_IGNORE_TERMS) := by
  refine ⟨fun args b => rfl, ?_, ?_⟩
  · intro ts x
    unfold effectiveIgnoreTerms
    simp only [Option.getD_some, List.mem_append, List.mem_map]
    constructor
    · rintro (⟨t, ht, rfl⟩ | h)
      · exact Or.inl ⟨t, ht, rfl⟩
      · exact Or.inr h
    · rintro (⟨t, ht, rfl⟩ | h)
      · exact Or.inl ⟨t, ht, rfl⟩
      · exact Or.inr h
  · intro x
    unfold effectiveIgnoreTerms
    simp

/-- C8: `process_directory` first creates the output directory, then walks
the input listing with a counter incremented for every entry (PDF or not);
`redact_pdf` is called exactly for entries ending in `.pdf`
case-insensitively, with output name `<counter>.pdf`, so non-PDF entries
consume output numbers: on the listing `["a.txt", "b.pdf"]` the only output
is `2.pdf`. -/
theorem C8_process_directory :
    (∀ (input_dir output_dir : Str) (listing : List Str),
      (process_directory_model input_dir output_dir listing).head? =
        some (DirEvent.makedirs output_dir)) ∧
    (∀ (input_dir output_dir : Str) (listing : List Str) (ip op : Str),
      DirEvent.redactCall ip op ∈
          process_directory_model input_dir output_dir listing ↔
        ∃ i filename, listing[i]? = some filename ∧
          endsWithPdf filename = true ∧
          ip = pathJoin input_dir filename ∧
          op = pathJoin output_dir (natToStr (i + 1) ++ str ".pdf")) ∧
    process_directory_model (str "in") (str "out")
        [str "a.txt", str "b.pdf"] =
      [DirEvent.makedirs (str "out"),
       DirEvent.redactCall (pathJoin (str "in") (str "b.pdf"))
         (pathJoin (str "out") (str "2.pdf"))] := by
  refine ⟨fun i o l => rfl, ?_, by decide⟩
  intro input_dir output_dir listing ip op
  unfold process_directory_model
  rw [List.mem_cons]
  constructor
  · rintro (heq | hmem)
    · cases heq
    · rcases List.mem_flatMap.mp hmem with ⟨p, hp, he⟩
      by_cases hpdf : endsWithPdf p.2 = true
      · rw [if_pos hpdf] at he
        have heq := List.mem_singleton.mp he
        cases heq
        exact ⟨p.1, p.2, List.mem_enum_iff_getElem?.mp hp, hpdf, rfl, rfl⟩
      · rw [if_neg hpdf] at he
        exact absurd he (List.not_mem_nil _)
  · rintro ⟨i, f, hget, hpdf, rfl, rfl⟩
    refine Or.inr (List.mem_flatMap.mpr ⟨(i, f),
      List.mem_enum_iff_getElem?.mpr hget, ?_⟩)
    rw [if_pos hpdf]
    exact List.mem_singleton.mpr rfl

/-- C9: the `extract.py` script analyzes the extracted text for exactly the
entity types PERSON, PHONE_NUMBER and EMAIL_ADDRESS, anonymizes the detected
spans, writes the anonymized text as UTF-8 plain text to
`redacted_resume.txt`, and produces no PDF output. -/
theorem C9_extract_script (pdf_text : Str) (analyze : Analyzer)
    (anonymize : Str → List RecognizerResult → Str) :
    (ExtractEvent.analyzeCall pdf_text
        [str "PERSON", str "PHONE_NUMBER", str "EMAIL_ADDRESS"] (str "en") ∈
      extract_script pdf_text analyze anonymize) ∧
    (ExtractEvent.writeTextFile (str "redacted_resume.txt") (str "utf-8")
        (anonymize pdf_text (analyze pdf_text extract_entities (str "en"))) ∈
      extract_script pdf_text analyze anonymize) ∧
    (∀ (t : Str) (es : List Str) (lang : Str),
      ExtractEvent.analyzeCall t es lang ∈
          extract_script pdf_text analyze anonymize →
        es = [str "PERSON", str "PHONE_NUMBER", str "EMAIL_ADDRESS"] ∧
        lang = str "en") ∧
    (∀ (path enc content : Str),
      ExtractEvent.writeTextFile path enc content ∈
          extract_script pdf_text analyze anonymize →
        path = str "redacted_resume.txt" ∧ enc = str "utf-8") ∧
    (∀ path : Str,
      ExtractEvent.writePdfFile path ∉
        extract_script pdf_text analyze anonymize) := by
  unfold extract_script extract_entities
  refine ⟨by simp, by simp, ?_, ?_, ?_⟩
  · intro t es lang hmem
    simp only [List.mem_cons, List.not_mem_nil, or_false] at hmem
    rcases hmem with heq | heq | heq
    · cases heq; exact ⟨rfl, rfl⟩
    · cases heq
    · cases heq
  · intro path enc content hmem
    simp only [List.mem_cons, List.not_mem_nil, or_false] at hmem
    rcases hmem with heq | heq | heq
    · cases heq
    · cases heq
    · cases heq; exact ⟨rfl, rfl⟩
  · intro path hmem
    simp only [List.mem_cons, List.not_mem_nil, or_false] at hmem
    rcases hmem with heq | heq | heq
    · cases heq
    · cases heq
    · cases heq

/-- Witness for C9: on a concrete run, the script's analyze call carries the
three entity types with language `en`, and its text write targets
`redacted_resume.txt` with UTF-8 encoding. -/
theorem C9_witness :
    ([str "PERSON", str "PHONE_NUMBER", str "EMAIL_ADDRESS"] =
        [str "PERSON", str "PHONE_NUMBER", str "EMAIL_ADDRESS"] ∧
      str "en" = str "en") ∧
    (str "redacted_resume.txt" = str "redacted_resume.txt" ∧
      str "utf-8" = str "utf-8") :=
  ⟨(C9_extract_script (str "t") analyzer0 (fun _ _ => str "x")).2.2.1
      (str "t") [str "PERSON", str "PHONE_NUMBER", str "EMAIL_ADDRESS"]
      (str "en") (by decide),
   (C9_extract_script (str "t") analyzer0 (fun _ _ => str "x")).2.2.2.1
      (str "redacted_resume.txt") (str "utf-8") (str "x") (by decide)⟩

/-- C10: `redact.py` never binds the module-level name `traceback`, so when an
exception reaches the outermost handler of `redact_pdf`, the handler's call
to `traceback.print_exc()` raises `NameError` rather than completing the
error report. -/
theorem C10_outer_handler_nameerror :
    (str "traceback" ∉ redact_py_globals) ∧
    (∀ env : PdfEnv, env.openFails = false → env.bodyRaises = true →
      redact_pdf_run env = RunResult.raisedNameError) := by
  constructor
  · decide
  · intro env h1 h2
    have hno : ¬(env.openFails = true) := by simp [h1]
    have hmid : redact_pdf_run env = outerHandlerResult := by
      unfold redact_pdf_run
      rw [if_neg hno, if_pos h2]
    rw [hmid]
    decide

/-- Witness for C10: a concrete run in which an exception reaches the
outermost handler ends in `NameError`. -/
theorem C10_witness :
    redact_pdf_run { env0 with bodyRaises := true } =
      RunResult.raisedNameError :=
  C10_outer_handler_nameerror.2 { env0 with bodyRaises := true } rfl rfl
/-- Witness for C7: a concrete dispatch that is unchanged when the
`--disable-default-ignores` flag is flipped. -/
theorem C7_witness :
    main_dispatch { input := str "i", output := str "o", batch := false,
                    ignore := none, disable_default_ignores := true } =
    main_dispatch { input := str "i", output := str "o", batch := false,
                    ignore := none, disable_default_ignores := false } :=
  C7_ignore_terms_union.1
    { input := str "i", output := str "o", batch := false, ignore := none,
      disable_default_ignores := false } true

/-- Witness for C8: on the listing `["a.txt", "b.pdf"]` the PDF entry is
redacted into output number 2. -/
theorem C8_witness :
    DirEvent.redactCall (pathJoin (str "in") (str "b.pdf"))
        (pathJoin (str "out") (natToStr 2 ++ str ".pdf")) ∈
      process_directory_model (str "in") (str "out")
        [str "a.txt", str "b.pdf"] :=
  (C8_process_directory.2.1 (str "in") (str "out")
      [str "a.txt", str "b.pdf"] _ _).mpr
    ⟨1, str "b.pdf", by decide, by decide, rfl, rfl⟩
